import Mathlib

/-!
Shallow embedding of `main.py` from the `video-edit-script` repository, and
proofs of the specification's claims about it.

The script has four components:
* `calculate_total_duration` — parses `HH:MM:SS` timestamps (base-60
  positional, Python `int` on each colon-separated field) and sums the
  per-clip `end - start` deltas, formatting the total with Python
  `f"{h:02}:{m:02}:{s:02}"` (floor division `//` and Python `%`, i.e. `Int.fdiv`
  and `Int.fmod`).
* `cut_video` / `combine_videos` — build an `ffmpeg` argument list and run it
  as a subprocess with `check=True` (non-zero exit raises, aborting the run).
* `main` — the orchestrator: cuts every clip in insertion order, then either
  moves the single intermediate to the final path or combines all of them,
  and finally deletes every intermediate file that still exists.

The external world is modelled explicitly: the filesystem is a list of
existing paths (with set semantics), every external invocation and filesystem
mutation is recorded as an `Event`, and the success of each external `ffmpeg`
call is an oracle parameter (`cutOk`, `combineOk`); `subprocess.run(...,
check=True)` raising on a non-zero exit is modelled by `Except`, the error
value carrying the world state at the moment of the abort.

Python dictionaries iterate in insertion order, so a `clips_dict` is embedded
as the insertion-ordered association list of its entries
(`List (String × String × String)`: filename, start, end); key uniqueness is
a `Nodup` hypothesis where a claim needs it.
-/

/-! ## Characters and decimal digits

Python string/number primitives used by the script, embedded over `List Char`
(so that every definition reduces by `decide`/`rfl` on concrete input).
-/

/-- Value of a decimal digit character, `none` if not `'0'`–`'9'`.
Embeds the per-character acceptance of Python `int`. -/
def digitVal (c : Char) : Option Nat :=
  if '0' ≤ c ∧ c ≤ '9' then some (c.toNat - '0'.toNat) else none

/-- Left-to-right accumulation of decimal digits, as Python `int` does;
fails on the first non-digit character. -/
def parseDigitsAux (acc : Nat) : List Char → Option Nat
  | [] => some acc
  | c :: cs =>
    match digitVal c with
    | some d => parseDigitsAux (acc * 10 + d) cs
    | none => none

/-- Python `int` on a non-negative numeral: non-empty string of decimal
digits (leading zeros allowed, as in `int("007")`). -/
def parseNat : List Char → Option Nat
  | [] => none
  | c :: cs => parseDigitsAux 0 (c :: cs)

/-- Python `int` on a (possibly negative) numeral: an optional leading minus
sign followed by a non-empty digit string. -/
def pyInt (l : List Char) : Option Int :=
  match l with
  | [] => none
  | c :: cs =>
    if c = '-' then (parseNat cs).map (fun n => -(n : Int))
    else (parseNat (c :: cs)).map (fun n => (n : Int))

/-- The decimal digit character for `d < 10`. -/
def digitChr (d : Nat) : Char := Char.ofNat (48 + d)

/-- Fuel-driven decimal rendering of a natural number (most significant digit
first), the digits of Python `str`/`format`. Structural in the fuel so that
it reduces in the kernel; `natChars` supplies enough fuel. -/
def natCharsAux : Nat → Nat → List Char → List Char
  | 0, _, acc => acc
  | fuel + 1, n, acc =>
    if n < 10 then digitChr n :: acc
    else natCharsAux fuel (n / 10) (digitChr (n % 10) :: acc)

/-- Decimal digit string of a natural number. -/
def natChars (n : Nat) : List Char := natCharsAux (n + 1) n []

/-- Recursive specification of `natChars`, used only in proofs. -/
def natCharsRec (n : Nat) : List Char :=
  if _ : n < 10 then [digitChr n]
  else natCharsRec (n / 10) ++ [digitChr (n % 10)]
  decreasing_by exact Nat.div_lt_self (by omega) (by omega)

/-! ## Timestamp parsing — `calculate_total_duration`, lines 14–19

`sum(int(x) * 60**i for i, x in enumerate(reversed(time.split(":"))))`.
-/

/-- Python `s.split(":")` on the character list: splits at every colon and
keeps empty fields, always returning at least one field. -/
def splitCols : List Char → List (List Char)
  | [] => [[]]
  | x :: xs =>
    match splitCols xs with
    | [] => [[]]
    | f :: rest => if x = ':' then [] :: f :: rest else (x :: f) :: rest

/-- Computes `sum v_i * 60^i` over a list whose head has weight `60^0` (Horner form).
The fields are fed in reversed order, so the rightmost field of the
timestamp is the units. -/
def weightedSum : List Int → Int
  | [] => 0
  | v :: vs => v + 60 * weightedSum vs

/-- Second count of a timestamp string: base-60 positional parse of its
colon-separated fields, rightmost field weighted `60^0`; `none` when any
field is not a Python-`int` numeral (the `ValueError` case). -/
def parseTimestamp (s : String) : Option Int := do
  let vals ← (splitCols s.data).reverse.mapM pyInt
  pure (weightedSum vals)

/-! ## Duration formatting — `calculate_total_duration`, lines 22–25

`hours = total // 3600; minutes = (total % 3600) // 60; seconds = total % 60`
with Python floor division and floor modulus, then
`f"{hours:02}:{minutes:02}:{seconds:02}"`.
-/

/-- Python `format(v, "02")`: minimum width 2, zero-padded after the sign. -/
def pad2 (v : Int) : List Char :=
  let sign : List Char := if v < 0 then ['-'] else []
  let ds := natChars v.natAbs
  sign ++ List.replicate (2 - (sign.length + ds.length)) '0' ++ ds

/-- The final f-string of `calculate_total_duration` on a second total:
Python `//` is `Int.fdiv` and Python `%` is `Int.fmod`. -/
def formatTotal (total : Int) : String :=
  ⟨pad2 (total.fdiv 3600) ++ [':'] ++ pad2 ((total.fmod 3600).fdiv 60) ++ [':'] ++
    pad2 (total.fmod 60)⟩

/-- One clip request: `(filename, (start_time, end_time))`. -/
abbrev Clip := String × String × String

/-- The `end_seconds - start_seconds` contribution of one clip,
`none` if either timestamp fails to parse. -/
def entryDelta (c : Clip) : Option Int := do
  let s ← parseTimestamp c.2.1
  let e ← parseTimestamp c.2.2
  pure (e - s)

/-- Embeds `calculate_total_duration(clips_dict)` (lines 7–25): accumulate the
per-entry deltas over the dict in insertion order, then format; `none` models
the `ValueError` a malformed field raises. -/
def calculate_total_duration (clips : List Clip) : Option String := do
  let ds ← clips.mapM entryDelta
  pure (formatTotal ds.sum)

/-! ## External invocations — `cut_video` (lines 28–51) and
`combine_videos` (lines 54–77)

The argument lists handed to `subprocess.run`. -/

/-- The `command` list built by `cut_video` (lines 33–48). -/
def cutCommand (input_file output_file start_time end_time : String) : List String :=
  ["ffmpeg", "-ss", start_time, "-i", input_file, "-to", end_time,
   "-c:v", "libx264", "-c:a", "aac", "-avoid_negative_ts", "1", output_file]

/-- The `command` list built by `combine_videos` (lines 58–74): one `-i`
pair per input, then the concat filter sized to the input count. -/
def combineCommand (input_files : List String) (output_file : String) : List String :=
  "ffmpeg" :: (input_files.flatMap (fun f => ["-i", f]) ++
    ["-filter_complex", "concat=n=" ++ toString input_files.length ++ ":v=1:a=1",
     "-c:v", "libx264", "-c:a", "aac", output_file])

/-! ## The orchestrator — `main` (lines 80–107)

Filesystem and event-trace model. -/

/-- One observable action of the run: an external `ffmpeg` invocation
(`cut`, `combine`), a `shutil.move`, or an `os.remove`. -/
inductive Event where
  | cut (input_file output_file start_time end_time : String)
  | combine (input_files : List String) (output_file : String)
  | move (src dst : String)
  | remove (file : String)
deriving DecidableEq, Repr

/-- World state threaded through `main`: the set of existing file paths and
the trace of actions performed so far. -/
structure World where
  fs : List String
  events : List Event
deriving DecidableEq, Repr

/-- Add a path to the filesystem (set semantics). -/
def insertFile (f : String) (fs : List String) : List String :=
  if f ∈ fs then fs else f :: fs

/-- Delete a path from the filesystem. -/
def removeFile (f : String) (fs : List String) : List String :=
  fs.filter (fun g => g ≠ f)

/-- Embeds `os.path.join(folder, name)` for a relative `name` (the script only ever
joins its working folder with plain filenames). -/
def pathJoin (folder name : String) : String := folder ++ "/" ++ name

/-- The intermediate output path `os.path.join(video_folder, f"cut_{filename}")`
derived for a clip (line 90). -/
def interPath (folder : String) (c : Clip) : String := pathJoin folder ("cut_" ++ c.1)

/-- The `cut_video` invocation recorded for a clip (lines 89–93). -/
def cutEvent (folder : String) (c : Clip) : Event :=
  Event.cut (pathJoin folder c.1) (interPath folder c) c.2.1 c.2.2

/-- The cutting loop of `main` (lines 85–94): for each entry in insertion
order, invoke `cut_video` and append the intermediate path to `cut_files`.
The oracle `cutOk` says whether the external processor exits with status 0
for a given filename; on a non-zero exit `subprocess.run(check=True)` raises
`CalledProcessError`, modelled by `.error` carrying the state at the abort
(the invocation is recorded; no output file is recorded for the failed call,
whose on-disk effect the script inherits from `ffmpeg` unspecified). -/
def cutLoop (cutOk : String → Bool) (folder : String) :
    List Clip → World → List String → Except World (World × List String)
  | [], w, acc => .ok (w, acc)
  | c :: rest, w, acc =>
    if cutOk c.1 then
      cutLoop cutOk folder rest
        ⟨insertFile (interPath folder c) w.fs, w.events ++ [cutEvent folder c]⟩
        (acc ++ [interPath folder c])
    else .error ⟨w.fs, w.events ++ [cutEvent folder c]⟩

/-- The cleanup loop of `main` (lines 105–107): for each recorded
intermediate, `if os.path.exists(file): os.remove(file)` — a missing file is
silently skipped. Returns the final filesystem and the remove events. -/
def cleanupLoop : List String → List String → List String × List Event
  | [], fs => (fs, [])
  | f :: rest, fs =>
    if f ∈ fs then
      let r := cleanupLoop rest (removeFile f fs)
      (r.1, Event.remove f :: r.2)
    else cleanupLoop rest fs

/-- The branch of `main` after the loop (lines 96–101): if exactly one
intermediate resulted, `shutil.move` it onto the final path, otherwise
invoke `combine_videos` (whose exit status the oracle `combineOk` gives);
a failed combine raises, carrying the world at the abort. -/
def combineOrMove (combineOk : Bool) (final : String) (w : World)
    (cutFiles : List String) : Except World World :=
  if h : cutFiles.length = 1 then
    .ok ⟨insertFile final (removeFile (cutFiles.get ⟨0, by omega⟩) w.fs),
      w.events ++ [Event.move (cutFiles.get ⟨0, by omega⟩) final]⟩
  else
    if combineOk then
      .ok ⟨insertFile final w.fs, w.events ++ [Event.combine cutFiles final]⟩
    else .error ⟨w.fs, w.events ++ [Event.combine cutFiles final]⟩

/-- After a completed combine-or-move step, run the cleanup loop. -/
def finishRun (cutFiles : List String) (w : World) : World :=
  ⟨(cleanupLoop cutFiles w.fs).1, w.events ++ (cleanupLoop cutFiles w.fs).2⟩

/-- Embeds `main(video_folder, clips_dict, final_output_file)` (lines 80–107):
cut every clip in insertion order, then move or combine, then delete every
recorded intermediate that still exists. `.error` is the uncaught
`CalledProcessError` propagating out of `main`. -/
def mainRun (cutOk : String → Bool) (combineOk : Bool) (folder : String)
    (clips : List Clip) (final : String) (fs0 : List String) : Except World World :=
  match cutLoop cutOk folder clips ⟨fs0, []⟩ [] with
  | .error w => .error w
  | .ok (w, cutFiles) =>
    match combineOrMove combineOk final w cutFiles with
    | .error wf => .error wf
    | .ok wc => .ok (finishRun cutFiles wc)

/-- The events of a run, whether it completed or aborted. -/
def runEvents : Except World World → List Event
  | .ok w => w.events
  | .error w => w.events

/-! ## The `__main__` block (lines 110–127)

Compute and display the estimated total duration, then require the
confirmation `"y"` (after `strip().lower()`) before calling `main`. -/

/-- Python `str.strip()` whitespace predicate (ASCII portion). -/
def pyIsSpace (c : Char) : Bool :=
  c = ' ' ∨ c = '\t' ∨ c = '\n' ∨ c = '\r' ∨ c = '\x0b' ∨ c = '\x0c'

/-- Python `str.lower()` on one character (ASCII portion). -/
def pyLowerChar (c : Char) : Char :=
  if 'A' ≤ c ∧ c ≤ 'Z' then Char.ofNat (c.toNat + 32) else c

/-- Embeds `s.strip().lower()` applied to the user's response (line 122). -/
def stripLower (s : String) : List Char :=
  (((s.data.dropWhile pyIsSpace).reverse.dropWhile pyIsSpace).reverse).map pyLowerChar

/-- Outcome of one invocation of the script. -/
inductive ScriptResult where
  | cancelled (w : World)
  | completed (w : World)
  | failed (w : World)
deriving DecidableEq, Repr

/-- The `__main__` block (lines 119–127): compute the total duration
(raising, i.e. `none`, on malformed timestamps — this happens before the
prompt), display it, then read the response; anything other than `"y"` after
`strip().lower()` exits before `main` is called, touching no file. -/
def scriptRun (cutOk : String → Bool) (combineOk : Bool) (userInput : String)
    (folder : String) (clips : List Clip) (final : String) (fs0 : List String) :
    Option ScriptResult := do
  let _total ← calculate_total_duration clips
  if stripLower userInput = ['y'] then
    match mainRun cutOk combineOk folder clips final fs0 with
    | .ok w => pure (ScriptResult.completed w)
    | .error w => pure (ScriptResult.failed w)
  else
    pure (ScriptResult.cancelled ⟨fs0, []⟩)

/-! ## Spec-side definitions

Definitions written from the specification's words (not from the source),
for refinement comparison with the embedded code. -/

/-- Spec: "zero-padded two-digit" field of a non-negative value (padding a
decimal numeral to width two with zeros; wider values keep all digits). -/
def specPad2 (n : Nat) : List Char :=
  List.replicate (2 - (natChars n).length) '0' ++ natChars n

/-- Spec: the total duration string for a non-negative second count —
zero-padded two-digit minutes and seconds, and an hours field that is not
capped by any modulus. -/
def specFormatHMS (n : Nat) : String :=
  ⟨specPad2 (n / 3600) ++ ':' :: specPad2 (n % 3600 / 60) ++ ':' :: specPad2 (n % 60)⟩

/-- Spec: the cut invocation — "seek-start, input-path, seek-end (absolute),
video-codec=fixed-value, audio-codec=fixed-value,
negative-timestamp-correction=enabled, output-path". -/
def specCutInvocation (input_file output_file start_time end_time : String) : List String :=
  ["ffmpeg"] ++ ["-ss", start_time] ++ ["-i", input_file] ++ ["-to", end_time] ++
    ["-c:v", "libx264"] ++ ["-c:a", "aac"] ++ ["-avoid_negative_ts", "1"] ++ [output_file]

/-! ## Sanity checks on concrete scenarios from the specification -/

example : calculate_total_duration [("a.mp4", "00:00:10", "00:00:20"), ("b.mp4", "00:00:00", "00:00:05")] = some "00:00:15" := by decide

example : calculate_total_duration [("only.mp4", "00:01:00", "00:02:30")] = some "00:01:30" := by decide

example : calculate_total_duration [] = some "00:00:00" := by decide

example : calculate_total_duration [("a.mp4", "00:00:10", "00:00:00")] = some "-1:59:50" := by decide

example :
    mainRun (fun _ => true) true "V" [("a.mp4", "00:00:10", "00:00:20"), ("b.mp4", "00:00:00", "00:00:05")] "V/final.mp4" [] =
      .ok ⟨["V/final.mp4"],
        [cutEvent "V" ("a.mp4", "00:00:10", "00:00:20"),
         cutEvent "V" ("b.mp4", "00:00:00", "00:00:05"),
         Event.combine ["V/cut_a.mp4", "V/cut_b.mp4"] "V/final.mp4",
         Event.remove "V/cut_a.mp4", Event.remove "V/cut_b.mp4"]⟩ := rfl

example :
    mainRun (fun _ => true) true "V" [("only.mp4", "00:01:00", "00:02:30")] "V/final.mp4" [] =
      .ok ⟨["V/final.mp4"],
        [cutEvent "V" ("only.mp4", "00:01:00", "00:02:30"),
         Event.move "V/cut_only.mp4" "V/final.mp4"]⟩ := rfl

example :
    mainRun (fun _ => true) true "V" [] "V/final.mp4" [] =
      .ok ⟨["V/final.mp4"], [Event.combine [] "V/final.mp4"]⟩ := rfl

example :
    mainRun (fun f => f ≠ "b.mp4") true "V"
      [("a.mp4", "00:00:10", "00:00:20"), ("b.mp4", "00:00:00", "00:00:05"), ("c.mp4", "00:00:00", "00:00:05")] "V/final.mp4" [] =
      .error ⟨["V/cut_a.mp4"],
        [cutEvent "V" ("a.mp4", "00:00:10", "00:00:20"),
         cutEvent "V" ("b.mp4", "00:00:00", "00:00:05")]⟩ := rfl

example : scriptRun (fun _ => true) true " N " "V" [] "V/final.mp4" ["x"] =
    some (ScriptResult.cancelled ⟨["x"], []⟩) := rfl

/-! ## Decimal rendering and re-parsing -/

theorem natCharsAux_eq (fuel : Nat) : ∀ (n : Nat) (acc : List Char), n < fuel →
    natCharsAux fuel n acc = natCharsRec n ++ acc := by
  induction fuel with
  | zero => intro n acc h; omega
  | succ f ih =>
    intro n acc h
    by_cases h10 : n < 10
    · rw [natCharsAux, if_pos h10, natCharsRec, dif_pos h10]
      simp
    · have hdiv : n / 10 < n := Nat.div_lt_self (by omega) (by omega)
      rw [natCharsAux, if_neg h10, ih (n / 10) _ (by omega)]
      conv_rhs => rw [natCharsRec, dif_neg h10]
      simp

theorem natChars_eq (n : Nat) : natChars n = natCharsRec n := by
  rw [natChars, natCharsAux_eq (n + 1) n [] (by omega), List.append_nil]

theorem natCharsRec_ne_nil (n : Nat) : natCharsRec n ≠ [] := by
  rw [natCharsRec]
  split <;> simp

theorem natCharsRec_len_pos (n : Nat) : 1 ≤ (natCharsRec n).length := by
  have := natCharsRec_ne_nil n
  cases h : natCharsRec n with
  | nil => exact absurd h this
  | cons c cs => simp

theorem mem_natCharsRec (n : Nat) : ∀ c ∈ natCharsRec n, ∃ d, d < 10 ∧ c = digitChr d := by
  induction n using Nat.strong_induction_on with
  | _ n ih =>
    intro c hc
    rw [natCharsRec] at hc
    by_cases h10 : n < 10
    · rw [dif_pos h10] at hc
      simp at hc
      exact ⟨n, h10, hc⟩
    · rw [dif_neg h10] at hc
      rcases List.mem_append.mp hc with hc | hc
      · exact ih (n / 10) (Nat.div_lt_self (by omega) (by omega)) c hc
      · exact ⟨n % 10, Nat.mod_lt _ (by omega), by simpa using hc⟩

theorem natCharsRec_len_le_two {n : Nat} (h : n < 100) : (natCharsRec n).length ≤ 2 := by
  rw [natCharsRec]
  by_cases h10 : n < 10
  · rw [dif_pos h10]; simp
  · rw [dif_neg h10]
    have : n / 10 < 10 := by omega
    rw [natCharsRec, dif_pos this]
    simp

theorem natCharsRec_len_ge_two {n : Nat} (h : 10 ≤ n) : 2 ≤ (natCharsRec n).length := by
  rw [natCharsRec, dif_neg (by omega)]
  have := natCharsRec_len_pos (n / 10)
  simp
  omega

theorem natCharsRec_len_ge_three {n : Nat} (h : 100 ≤ n) : 3 ≤ (natCharsRec n).length := by
  rw [natCharsRec, dif_neg (by omega)]
  have : 10 ≤ n / 10 := by omega
  have := natCharsRec_len_ge_two this
  simp
  omega

theorem digitVal_digitChr {d : Nat} (h : d < 10) : digitVal (digitChr d) = some d := by
  interval_cases d <;> decide

theorem digitChr_ne_colon {d : Nat} (h : d < 10) : digitChr d ≠ ':' := by
  interval_cases d <;> decide

theorem digitChr_ne_minus {d : Nat} (h : d < 10) : digitChr d ≠ '-' := by
  interval_cases d <;> decide

theorem parseDigitsAux_append (l₁ l₂ : List Char) : ∀ a : Nat,
    parseDigitsAux a (l₁ ++ l₂) = (parseDigitsAux a l₁).bind (fun b => parseDigitsAux b l₂) := by
  induction l₁ with
  | nil => intro a; simp [parseDigitsAux]
  | cons c cs ih =>
    intro a
    cases hd : digitVal c <;> simp [parseDigitsAux, hd, ih]

theorem parseDigitsAux_natCharsRec (n : Nat) : ∀ a : Nat,
    parseDigitsAux a (natCharsRec n) = some (a * 10 ^ (natCharsRec n).length + n) := by
  induction n using Nat.strong_induction_on with
  | _ n ih =>
    intro a
    by_cases h10 : n < 10
    · rw [natCharsRec, dif_pos h10]
      simp [parseDigitsAux, digitVal_digitChr h10]
    · have hdiv : n / 10 < n := Nat.div_lt_self (by omega) (by omega)
      rw [natCharsRec, dif_neg h10, parseDigitsAux_append, ih (n / 10) hdiv a]
      have hmod : n % 10 < 10 := Nat.mod_lt _ (by omega)
      simp [parseDigitsAux, digitVal_digitChr hmod]
      calc (a * 10 ^ (natCharsRec (n / 10)).length + n / 10) * 10 + n % 10
          = a * (10 ^ (natCharsRec (n / 10)).length * 10) + (n / 10 * 10 + n % 10) := by ring
        _ = a * 10 ^ ((natCharsRec (n / 10)).length + 1) + n := by
            rw [pow_succ]
            congr 1
            omega

theorem parseNat_of_ne_nil {l : List Char} (h : l ≠ []) : parseNat l = parseDigitsAux 0 l := by
  cases l with
  | nil => exact absurd rfl h
  | cons c cs => rfl

theorem parseDigitsAux_zeros (l : List Char) : ∀ k : Nat,
    parseDigitsAux 0 (List.replicate k '0' ++ l) = parseDigitsAux 0 l := by
  intro k
  induction k with
  | zero => simp
  | succ j ih =>
    have h0 : digitVal '0' = some 0 := by decide
    simpa [List.replicate_succ, parseDigitsAux, h0] using ih

theorem parseNat_pad (k n : Nat) : parseNat (List.replicate k '0' ++ natChars n) = some n := by
  have hne : List.replicate k '0' ++ natChars n ≠ [] := by
    rw [natChars_eq]
    simp [natCharsRec_ne_nil n]
  rw [parseNat_of_ne_nil hne, parseDigitsAux_zeros, natChars_eq, parseDigitsAux_natCharsRec]
  simp

/-! ## `pad2` and `pyInt` -/

theorem mem_pad2 (v : Int) : ∀ c ∈ pad2 v, c = '-' ∨ ∃ d, d < 10 ∧ c = digitChr d := by
  intro c hc
  simp only [pad2] at hc
  rcases List.mem_append.mp hc with h1 | h2
  · rcases List.mem_append.mp h1 with ha | hb
    · split at ha
      · left; simpa using ha
      · simp at ha
    · right; exact ⟨0, by omega, (List.mem_replicate.mp hb).2⟩
  · right
    rw [natChars_eq] at h2
    exact mem_natCharsRec _ c h2

theorem pad2_no_colon (v : Int) : ∀ c ∈ pad2 v, c ≠ ':' := by
  intro c hc
  rcases mem_pad2 v c hc with hc | ⟨d, hd, hc⟩
  · subst hc; decide
  · subst hc; exact digitChr_ne_colon hd

theorem pyInt_of_digits {l : List Char} (hne : l ≠ [])
    (hdig : ∀ c ∈ l, ∃ d, d < 10 ∧ c = digitChr d) :
    pyInt l = (parseNat l).map (fun n => (n : Int)) := by
  cases l with
  | nil => exact absurd rfl hne
  | cons c cs =>
    obtain ⟨d, hd, hc⟩ := hdig c (by simp)
    rw [pyInt, if_neg (hc ▸ digitChr_ne_minus hd)]

theorem pyInt_pad2 (v : Int) : pyInt (pad2 v) = some v := by
  by_cases hv : v < 0
  · have h1 : pad2 v = '-' :: (List.replicate (2 - (1 + (natChars v.natAbs).length)) '0' ++
        natChars v.natAbs) := by
      simp only [pad2]
      rw [if_pos hv]
      simp
    rw [h1, pyInt, if_pos rfl, parseNat_pad]
    have h2 : (some (v.natAbs : Nat)).map (fun n => -(n : Int)) = some (-(v.natAbs : Int)) := rfl
    rw [h2]
    simp only [Option.some.injEq]
    omega
  · have h1 : pad2 v = List.replicate (2 - (natChars v.natAbs).length) '0' ++
        natChars v.natAbs := by
      simp only [pad2]
      rw [if_neg hv]
      simp
    have hdig : ∀ c ∈ List.replicate (2 - (natChars v.natAbs).length) '0' ++ natChars v.natAbs,
        ∃ d, d < 10 ∧ c = digitChr d := by
      intro c hc
      rcases List.mem_append.mp hc with hc | hc
      · exact ⟨0, by omega, (List.mem_replicate.mp hc).2⟩
      · rw [natChars_eq] at hc
        exact mem_natCharsRec _ c hc
    have hne : List.replicate (2 - (natChars v.natAbs).length) '0' ++ natChars v.natAbs ≠ [] := by
      rw [natChars_eq]
      simp [natCharsRec_ne_nil]
    rw [h1, pyInt_of_digits hne hdig, parseNat_pad]
    have h2 : (some (v.natAbs : Nat)).map (fun n => (n : Int)) = some ((v.natAbs : Int)) := rfl
    rw [h2]
    simp only [Option.some.injEq]
    omega

/-! ## `splitCols` -/

theorem splitCols_ne_nil (l : List Char) : splitCols l ≠ [] := by
  cases l with
  | nil => simp [splitCols]
  | cons x xs =>
    rw [splitCols]
    split
    · simp
    · split <;> simp

theorem splitCols_no_colon : ∀ l : List Char, (∀ c ∈ l, c ≠ ':') → splitCols l = [l] := by
  intro l
  induction l with
  | nil => intro _; rfl
  | cons x xs ih =>
    intro h
    have hx : ¬ x = ':' := h x (by simp)
    rw [splitCols, ih (fun c hc => h c (by simp [hc]))]
    simp [hx]

theorem splitCols_append (b : List Char) : ∀ a : List Char, (∀ c ∈ a, c ≠ ':') →
    splitCols (a ++ ':' :: b) = a :: splitCols b := by
  intro a
  induction a with
  | nil =>
    intro _
    rw [List.nil_append, splitCols]
    cases h : splitCols b with
    | nil => exact absurd h (splitCols_ne_nil b)
    | cons f rest => simp
  | cons x xs ih =>
    intro h
    have hx : ¬ x = ':' := h x (by simp)
    rw [List.cons_append, splitCols, ih (fun c hc => h c (by simp [hc]))]
    simp [hx]

/-! ## The parse/format round trip -/

theorem parseTimestamp_formatTotal (t : Int) : parseTimestamp (formatTotal t) = some t := by
  rw [parseTimestamp, formatTotal]
  have hdata : (String.mk (pad2 (t.fdiv 3600) ++ [':'] ++ pad2 ((t.fmod 3600).fdiv 60) ++ [':'] ++
      pad2 (t.fmod 60))).data =
      pad2 (t.fdiv 3600) ++ ':' :: (pad2 ((t.fmod 3600).fdiv 60) ++ ':' :: pad2 (t.fmod 60)) := by
    simp
  rw [hdata, splitCols_append _ _ (pad2_no_colon _), splitCols_append _ _ (pad2_no_colon _),
    splitCols_no_colon _ (pad2_no_colon _)]
  simp only [List.reverse_cons, List.reverse_nil, List.nil_append, List.cons_append,
    List.mapM_cons, List.mapM_nil, pyInt_pad2]
  simp only [Option.pure_def, Option.bind_eq_bind, Option.some_bind, Option.bind_some]
  rw [weightedSum, weightedSum, weightedSum, weightedSum]
  simp only [Option.some.injEq]
  rw [Int.fmod_eq_emod _ (by norm_num), Int.fmod_eq_emod _ (by norm_num),
    Int.fdiv_eq_ediv _ (by norm_num), Int.fdiv_eq_ediv _ (by norm_num)]
  omega

/-! ## Refinement of the formatter to natural-number arithmetic -/

theorem pad2_ofNat (k : Nat) : pad2 ((k : Nat) : Int) = specPad2 k := by
  simp only [pad2, specPad2]
  rw [if_neg (by omega : ¬ ((k : Nat) : Int) < 0)]
  simp [Int.natAbs_ofNat]

theorem int_fdiv_ofNat (n : Nat) (m : Nat) (hm : 0 < m) :
    ((n : Nat) : Int).fdiv (m : Nat) = ((n / m : Nat) : Int) := by
  rw [Int.fdiv_eq_ediv _ (by omega)]
  omega

theorem int_fmod_ofNat (n : Nat) (m : Nat) (hm : 0 < m) :
    ((n : Nat) : Int).fmod (m : Nat) = ((n % m : Nat) : Int) := by
  rw [Int.fmod_eq_emod _ (by omega)]
  omega

theorem formatTotal_ofNat (n : Nat) : formatTotal ((n : Nat) : Int) = specFormatHMS n := by
  rw [formatTotal, specFormatHMS]
  have h1 : ((n : Nat) : Int).fdiv 3600 = ((n / 3600 : Nat) : Int) := by
    rw [show (3600 : Int) = ((3600 : Nat) : Int) from rfl]
    exact int_fdiv_ofNat n 3600 (by omega)
  have h2 : ((n : Nat) : Int).fmod 3600 = ((n % 3600 : Nat) : Int) := by
    rw [show (3600 : Int) = ((3600 : Nat) : Int) from rfl]
    exact int_fmod_ofNat n 3600 (by omega)
  have h3 : (((n % 3600 : Nat) : Int)).fdiv 60 = ((n % 3600 / 60 : Nat) : Int) := by
    rw [show (60 : Int) = ((60 : Nat) : Int) from rfl]
    exact int_fdiv_ofNat _ 60 (by omega)
  have h4 : ((n : Nat) : Int).fmod 60 = ((n % 60 : Nat) : Int) := by
    rw [show (60 : Int) = ((60 : Nat) : Int) from rfl]
    exact int_fmod_ofNat n 60 (by omega)
  rw [h1, h2, h3, h4, pad2_ofNat, pad2_ofNat, pad2_ofNat]
  simp

theorem specPad2_length_two {m : Nat} (hm : m < 100) : (specPad2 m).length = 2 := by
  rw [specPad2, natChars_eq]
  have h1 := natCharsRec_len_pos m
  have h2 := natCharsRec_len_le_two hm
  simp
  omega

theorem specPad2_length_ge_three {m : Nat} (hm : 100 ≤ m) : 3 ≤ (specPad2 m).length := by
  rw [specPad2, natChars_eq]
  have h3 := natCharsRec_len_ge_three hm
  simp
  omega

theorem sum_nonneg_of_pos {ds : List Int} (h : ∀ d ∈ ds, 0 < d) : 0 ≤ ds.sum := by
  induction ds with
  | nil => simp
  | cons d rest ih =>
    rw [List.sum_cons]
    have h1 := h d (by simp)
    have h2 := ih (fun x hx => h x (by simp [hx]))
    omega

/-! ## Claims about the Duration Calculator -/

/-- C3: for every Clip Request Set whose timestamps parse as colon-separated
numeric strings with `end_seconds > start_seconds` per entry,
`calculate_total_duration` returns the sum over all entries of
`end_seconds - start_seconds` (the `ds` produced entry-wise by `entryDelta`),
formatted with zero-padded two-digit minutes and seconds and an hours field
that no modulus caps (it has three or more digits once the total reaches
100 hours). -/
theorem calc_total_duration_valid (clips : List Clip) (ds : List Int)
    (hparse : clips.mapM entryDelta = some ds) (hpos : ∀ d ∈ ds, 0 < d) :
    calculate_total_duration clips = some (specFormatHMS ds.sum.toNat) ∧
      (specPad2 (ds.sum.toNat % 3600 / 60)).length = 2 ∧
      (specPad2 (ds.sum.toNat % 60)).length = 2 ∧
      (100 * 3600 ≤ ds.sum.toNat → 3 ≤ (specPad2 (ds.sum.toNat / 3600)).length) := by
  have hnn := sum_nonneg_of_pos hpos
  have hcast : ds.sum = ((ds.sum.toNat : Nat) : Int) := by omega
  refine ⟨?_, ?_, ?_, ?_⟩
  · simp only [calculate_total_duration, hparse, Option.pure_def, Option.bind_eq_bind,
      Option.some_bind]
    rw [hcast, formatTotal_ofNat]
    have htn : (((ds.sum.toNat : Nat) : Int)).toNat = ds.sum.toNat := by omega
    rw [htn]
  · exact specPad2_length_two (by omega)
  · exact specPad2_length_two (by omega)
  · intro h
    exact specPad2_length_ge_three (by omega)

/-- Witness for C3 on the specification's concrete scenario:
`{"a.mp4": ("00:00:10", "00:00:20"), "b.mp4": ("00:00:00", "00:00:05")}`. -/
theorem calc_total_duration_valid_witness :
    ([("a.mp4", "00:00:10", "00:00:20"), ("b.mp4", "00:00:00", "00:00:05")] :
        List Clip).mapM entryDelta = some [10, 5] ∧
      (∀ d ∈ ([10, 5] : List Int), 0 < d) ∧
      (calculate_total_duration [("a.mp4", "00:00:10", "00:00:20"),
          ("b.mp4", "00:00:00", "00:00:05")] =
        some (specFormatHMS (([10, 5] : List Int).sum.toNat)) ∧
        (specPad2 ((([10, 5] : List Int).sum.toNat) % 3600 / 60)).length = 2 ∧
        (specPad2 ((([10, 5] : List Int).sum.toNat) % 60)).length = 2 ∧
        (100 * 3600 ≤ (([10, 5] : List Int).sum.toNat) →
          3 ≤ (specPad2 ((([10, 5] : List Int).sum.toNat) / 3600)).length)) :=
  ⟨by decide, by decide,
    calc_total_duration_valid _ [10, 5] (by decide) (by decide)⟩

/-- C9: round trip — for `H ≥ 0` and `M, S < 60`, formatting the second
count `H*3600 + M*60 + S` with the calculator's output scheme produces the
zero-padded `H:M:S` string, and re-parsing it with the same base-60
positional scheme returns the original second count. -/
theorem format_parse_roundtrip (H M S : Nat) (hM : M < 60) (hS : S < 60) :
    formatTotal ((H * 3600 + M * 60 + S : Nat) : Int) =
      String.mk (pad2 ((H : Nat) : Int) ++ ':' :: pad2 ((M : Nat) : Int) ++
        ':' :: pad2 ((S : Nat) : Int)) ∧
    parseTimestamp (formatTotal ((H * 3600 + M * 60 + S : Nat) : Int)) =
      some ((H * 3600 + M * 60 + S : Nat) : Int) := by
  constructor
  · rw [formatTotal]
    have h1 : (((H * 3600 + M * 60 + S : Nat) : Int)).fdiv 3600 = ((H : Nat) : Int) := by
      rw [Int.fdiv_eq_ediv _ (by norm_num)]
      omega
    have h2 : (((H * 3600 + M * 60 + S : Nat) : Int)).fmod 3600 =
        ((M * 60 + S : Nat) : Int) := by
      rw [Int.fmod_eq_emod _ (by norm_num)]
      omega
    have h3 : (((M * 60 + S : Nat) : Int)).fdiv 60 = ((M : Nat) : Int) := by
      rw [Int.fdiv_eq_ediv _ (by norm_num)]
      omega
    have h4 : (((H * 3600 + M * 60 + S : Nat) : Int)).fmod 60 = ((S : Nat) : Int) := by
      rw [Int.fmod_eq_emod _ (by norm_num)]
      omega
    rw [h1, h2, h3, h4]
    simp
  · exact parseTimestamp_formatTotal _

/-- Witness for C9 at `H = 1`, `M = 2`, `S = 3`. -/
theorem format_parse_roundtrip_witness :
    (2 < 60 ∧ 3 < 60) ∧
      (formatTotal ((1 * 3600 + 2 * 60 + 3 : Nat) : Int) =
        String.mk (pad2 ((1 : Nat) : Int) ++ ':' :: pad2 ((2 : Nat) : Int) ++
          ':' :: pad2 ((3 : Nat) : Int)) ∧
      parseTimestamp (formatTotal ((1 * 3600 + 2 * 60 + 3 : Nat) : Int)) =
        some ((1 * 3600 + 2 * 60 + 3 : Nat) : Int)) :=
  ⟨⟨by decide, by decide⟩, format_parse_roundtrip 1 2 3 (by decide) (by decide)⟩

/-- C10: a Clip Request Set whose entries parse raises no error even when an
end precedes its start; each entry contributes its (possibly negative) delta
to the accumulated total, and the formatter puts the minutes and seconds
fields in `[0, 60)` while the hours field is the floor of `total / 3600`
(negative when the total is negative) because Python uses floor division and
floor modulus; a total of `-10` seconds formats as `"-1:59:50"`. -/
theorem calc_total_duration_negative (clips : List Clip) (ds : List Int)
    (hparse : clips.mapM entryDelta = some ds) :
    calculate_total_duration clips = some (formatTotal ds.sum) ∧
      (0 ≤ ds.sum.fmod 60 ∧ ds.sum.fmod 60 < 60) ∧
      (0 ≤ (ds.sum.fmod 3600).fdiv 60 ∧ (ds.sum.fmod 3600).fdiv 60 < 60) ∧
      (3600 * ds.sum.fdiv 3600 ≤ ds.sum ∧ ds.sum < 3600 * (ds.sum.fdiv 3600 + 1)) ∧
      (ds.sum < 0 → ds.sum.fdiv 3600 < 0) ∧
      formatTotal (-10) = "-1:59:50" := by
  refine ⟨?_, ⟨?_, ?_⟩, ⟨?_, ?_⟩, ⟨?_, ?_⟩, ?_, by decide⟩ <;>
    [skip;
     rw [Int.fmod_eq_emod _ (by norm_num)];
     rw [Int.fmod_eq_emod _ (by norm_num)];
     rw [Int.fmod_eq_emod _ (by norm_num), Int.fdiv_eq_ediv _ (by norm_num)];
     rw [Int.fmod_eq_emod _ (by norm_num), Int.fdiv_eq_ediv _ (by norm_num)];
     rw [Int.fdiv_eq_ediv _ (by norm_num)];
     rw [Int.fdiv_eq_ediv _ (by norm_num)];
     rw [Int.fdiv_eq_ediv _ (by norm_num)]]
  · simp only [calculate_total_duration, hparse, Option.pure_def, Option.bind_eq_bind,
      Option.some_bind]
  all_goals omega

/-- Witness for C10 on `{"a.mp4": ("00:00:10", "00:00:00")}`, whose single
entry has its end 10 seconds before its start. -/
theorem calc_total_duration_negative_witness :
    ([("a.mp4", "00:00:10", "00:00:00")] : List Clip).mapM entryDelta = some [-10] ∧
      (calculate_total_duration [("a.mp4", "00:00:10", "00:00:00")] =
          some (formatTotal (([-10] : List Int).sum)) ∧
        (0 ≤ (([-10] : List Int).sum).fmod 60 ∧ (([-10] : List Int).sum).fmod 60 < 60) ∧
        (0 ≤ ((([-10] : List Int).sum).fmod 3600).fdiv 60 ∧
          ((([-10] : List Int).sum).fmod 3600).fdiv 60 < 60) ∧
        (3600 * (([-10] : List Int).sum).fdiv 3600 ≤ ([-10] : List Int).sum ∧
          ([-10] : List Int).sum < 3600 * ((([-10] : List Int).sum).fdiv 3600 + 1)) ∧
        (([-10] : List Int).sum < 0 → (([-10] : List Int).sum).fdiv 3600 < 0) ∧
        formatTotal (-10) = "-1:59:50") :=
  ⟨by decide, calc_total_duration_negative _ [-10] (by decide)⟩

/-! ## The cutting loop, cleanup loop and filesystem primitives -/

theorem mem_insertFile (g f : String) (fs : List String) :
    g ∈ insertFile f fs ↔ g = f ∨ g ∈ fs := by
  rw [insertFile]
  split
  · constructor
    · intro h; exact Or.inr h
    · rintro (rfl | h)
      · assumption
      · assumption
  · simp

theorem mem_removeFile (g f : String) (fs : List String) :
    g ∈ removeFile f fs ↔ g ∈ fs ∧ g ≠ f := by
  simp [removeFile]

theorem cutLoop_ok (cutOk : String → Bool) (folder : String) :
    ∀ (clips : List Clip) (w : World) (acc : List String),
      (∀ c ∈ clips, cutOk c.1 = true) →
      cutLoop cutOk folder clips w acc =
        .ok (⟨clips.foldl (fun fs c => insertFile (interPath folder c) fs) w.fs,
              w.events ++ clips.map (cutEvent folder)⟩,
             acc ++ clips.map (interPath folder)) := by
  intro clips
  induction clips with
  | nil => intro w acc _; simp [cutLoop]
  | cons c rest ih =>
    intro w acc h
    rw [cutLoop]
    rw [if_pos (by rw [h c (by simp)])]
    rw [ih _ _ (fun d hd => h d (by simp [hd]))]
    simp [List.append_assoc]

theorem cutLoop_fail (cutOk : String → Bool) (folder : String) (c : Clip)
    (hc : cutOk c.1 = false) :
    ∀ (pre post : List Clip) (w : World) (acc : List String),
      (∀ d ∈ pre, cutOk d.1 = true) →
      cutLoop cutOk folder (pre ++ c :: post) w acc =
        .error ⟨pre.foldl (fun fs d => insertFile (interPath folder d) fs) w.fs,
                w.events ++ pre.map (cutEvent folder) ++ [cutEvent folder c]⟩ := by
  intro pre
  induction pre with
  | nil =>
    intro post w acc _
    rw [List.nil_append, cutLoop, if_neg (by rw [hc]; simp)]
    simp
  | cons d rest ih =>
    intro post w acc h
    rw [List.cons_append, cutLoop]
    rw [if_pos (by rw [h d (by simp)])]
    rw [ih _ _ _ (fun x hx => h x (by simp [hx]))]
    simp [List.append_assoc]

theorem cleanupLoop_events_remove : ∀ (files fs : List String), ∀ e ∈ (cleanupLoop files fs).2,
    ∃ f, e = Event.remove f := by
  intro files
  induction files with
  | nil => intro fs e h; simp [cleanupLoop] at h
  | cons f rest ih =>
    intro fs e h
    rw [cleanupLoop] at h
    by_cases hf : f ∈ fs
    · rw [if_pos hf] at h
      simp only [List.mem_cons] at h
      rcases h with h | h
      · exact ⟨f, h⟩
      · exact ih _ e h
    · rw [if_neg hf] at h
      exact ih _ e h

theorem cleanupLoop_fs_subset : ∀ (files fs : List String), ∀ g ∈ (cleanupLoop files fs).1,
    g ∈ fs := by
  intro files
  induction files with
  | nil => intro fs g h; simpa [cleanupLoop] using h
  | cons f rest ih =>
    intro fs g h
    rw [cleanupLoop] at h
    by_cases hf : f ∈ fs
    · rw [if_pos hf] at h
      have := ih _ g h
      exact ((mem_removeFile g f fs).mp this).1
    · rw [if_neg hf] at h
      exact ih _ g h

theorem cleanupLoop_removes : ∀ (files fs : List String), ∀ f ∈ files,
    f ∉ (cleanupLoop files fs).1 := by
  intro files
  induction files with
  | nil => intro fs f h; simp at h
  | cons f rest ih =>
    intro fs g hg
    rw [cleanupLoop]
    rcases List.mem_cons.mp hg with rfl | hg
    · by_cases hf : g ∈ fs
      · rw [if_pos hf]
        intro hmem
        have := cleanupLoop_fs_subset _ _ _ hmem
        exact ((mem_removeFile g g fs).mp this).2 rfl
      · rw [if_neg hf]
        intro hmem
        exact hf (cleanupLoop_fs_subset _ _ _ hmem)
    · by_cases hf : f ∈ fs
      · rw [if_pos hf]
        exact ih _ g hg
      · rw [if_neg hf]
        exact ih _ g hg

theorem cleanupLoop_preserves : ∀ (files fs : List String), ∀ g, g ∉ files →
    (g ∈ (cleanupLoop files fs).1 ↔ g ∈ fs) := by
  intro files
  induction files with
  | nil => intro fs g _; simp [cleanupLoop]
  | cons f rest ih =>
    intro fs g hg
    have hgf : g ≠ f := fun h => hg (h ▸ List.mem_cons_self f rest)
    have hgrest : g ∉ rest := fun h => hg (List.mem_cons_of_mem f h)
    rw [cleanupLoop]
    by_cases hf : f ∈ fs
    · rw [if_pos hf, ih _ g hgrest, mem_removeFile]
      constructor
      · exact fun h => h.1
      · exact fun h => ⟨h, hgf⟩
    · rw [if_neg hf]
      exact ih _ g hgrest

theorem foldl_insert_mem_of_mem (folder : String) :
    ∀ (clips : List Clip) (fs : List String) (g : String), g ∈ fs →
      g ∈ clips.foldl (fun fs c => insertFile (interPath folder c) fs) fs := by
  intro clips
  induction clips with
  | nil => intro fs g h; simpa using h
  | cons c rest ih =>
    intro fs g h
    rw [List.foldl_cons]
    exact ih _ g ((mem_insertFile g _ fs).mpr (Or.inr h))

theorem foldl_insert_mem_inter (folder : String) :
    ∀ (clips : List Clip) (fs : List String), ∀ c ∈ clips,
      interPath folder c ∈ clips.foldl (fun fs c => insertFile (interPath folder c) fs) fs := by
  intro clips
  induction clips with
  | nil => intro fs c h; simp at h
  | cons d rest ih =>
    intro fs c hc
    rw [List.foldl_cons]
    rcases List.mem_cons.mp hc with rfl | hc
    · exact foldl_insert_mem_of_mem folder rest _ _ ((mem_insertFile _ _ fs).mpr (Or.inl rfl))
    · exact ih _ c hc

theorem cleanupLoop_remove_mem : ∀ (files fs : List String) (f : String),
    Event.remove f ∈ (cleanupLoop files fs).2 → f ∈ files := by
  intro files
  induction files with
  | nil => intro fs f h; simp [cleanupLoop] at h
  | cons g rest ih =>
    intro fs f h
    rw [cleanupLoop] at h
    by_cases hg : g ∈ fs
    · rw [if_pos hg] at h
      simp only [List.mem_cons] at h
      rcases h with h | h
      · simp only [Event.remove.injEq] at h
        simp [h]
      · exact List.mem_cons_of_mem g (ih _ f h)
    · rw [if_neg hg] at h
      exact List.mem_cons_of_mem g (ih _ f h)

/-! ## Unfolding `mainRun` -/

theorem mainRun_unfold (cutOk : String → Bool) (combineOk : Bool) (folder final : String)
    (fs0 : List String) (clips : List Clip) (w : World) (cutFiles : List String)
    (h : cutLoop cutOk folder clips ⟨fs0, []⟩ [] = .ok (w, cutFiles)) :
    mainRun cutOk combineOk folder clips final fs0 =
      (match combineOrMove combineOk final w cutFiles with
       | .error wf => .error wf
       | .ok wc => .ok (finishRun cutFiles wc)) := by
  rw [mainRun, h]

theorem mainRun_unfold_err (cutOk : String → Bool) (combineOk : Bool) (folder final : String)
    (fs0 : List String) (clips : List Clip) (w : World)
    (h : cutLoop cutOk folder clips ⟨fs0, []⟩ [] = .error w) :
    mainRun cutOk combineOk folder clips final fs0 = .error w := by
  rw [mainRun, h]

/-- A run over a single-entry set: one cut, then the move, then cleanup of
the single recorded intermediate. -/
theorem mainRun_single (cutOk : String → Bool) (combineOk : Bool) (folder final : String)
    (fs0 : List String) (c : Clip) (hok : cutOk c.1 = true) :
    mainRun cutOk combineOk folder [c] final fs0 =
      .ok (finishRun [interPath folder c]
        ⟨insertFile final (removeFile (interPath folder c) (insertFile (interPath folder c) fs0)),
         [cutEvent folder c, Event.move (interPath folder c) final]⟩) := by
  rw [mainRun_unfold cutOk combineOk folder final fs0 [c] _ _
      (cutLoop_ok cutOk folder [c] ⟨fs0, []⟩ [] (by simpa using hok))]
  rw [combineOrMove, dif_pos (by simp)]
  rfl

/-- A run over a set whose size is not one, with every cut and the combine
succeeding: all cuts, then the combine, then cleanup. -/
theorem mainRun_combine (cutOk : String → Bool) (combineOk : Bool) (folder final : String)
    (fs0 : List String) (clips : List Clip)
    (hok : ∀ c ∈ clips, cutOk c.1 = true) (hcomb : combineOk = true)
    (hlen : clips.length ≠ 1) :
    mainRun cutOk combineOk folder clips final fs0 =
      .ok (finishRun (clips.map (interPath folder))
        ⟨insertFile final (clips.foldl (fun fs c => insertFile (interPath folder c) fs) fs0),
         clips.map (cutEvent folder) ++
           [Event.combine (clips.map (interPath folder)) final]⟩) := by
  rw [mainRun_unfold cutOk combineOk folder final fs0 clips _ _
      (cutLoop_ok cutOk folder clips ⟨fs0, []⟩ [] hok)]
  rw [combineOrMove, dif_neg (by simp only [List.nil_append, List.length_map]; exact hlen),
    if_pos hcomb]
  rfl

/-- A run over a set whose size is not one, with every cut succeeding but
the combine invocation failing: the error carries all cut events plus the
attempted combine, and no cleanup ran. -/
theorem mainRun_combine_fail (cutOk : String → Bool) (combineOk : Bool) (folder final : String)
    (fs0 : List String) (clips : List Clip)
    (hok : ∀ c ∈ clips, cutOk c.1 = true) (hcomb : combineOk = false)
    (hlen : clips.length ≠ 1) :
    mainRun cutOk combineOk folder clips final fs0 =
      .error ⟨clips.foldl (fun fs c => insertFile (interPath folder c) fs) fs0,
        clips.map (cutEvent folder) ++
          [Event.combine (clips.map (interPath folder)) final]⟩ := by
  rw [mainRun_unfold cutOk combineOk folder final fs0 clips _ _
      (cutLoop_ok cutOk folder clips ⟨fs0, []⟩ [] hok)]
  rw [combineOrMove, dif_neg (by simp only [List.nil_append, List.length_map]; exact hlen),
    if_neg (by rw [hcomb]; simp)]
  rfl

/-! ## Claims about the Orchestrator -/

/-- C1: over a Clip Request Set with `N ≥ 2` entries, a successful run of
`main` invokes `cut_video` exactly `N` times, once per entry in insertion
order, and then invokes `combine_videos` exactly once with the list of all
`N` intermediate paths in the same insertion order; only cleanup deletions
follow. -/
theorem main_multi_cuts_then_combine (cutOk : String → Bool) (combineOk : Bool)
    (folder final : String) (fs0 : List String) (clips : List Clip)
    (hlen : 2 ≤ clips.length) (hnd : (clips.map Prod.fst).Nodup)
    (hok : ∀ c ∈ clips, cutOk c.1 = true) (hcomb : combineOk = true) :
    ∃ w, mainRun cutOk combineOk folder clips final fs0 = .ok w ∧
      ∃ removes, w.events = clips.map (cutEvent folder) ++
          [Event.combine (clips.map (interPath folder)) final] ++ removes ∧
        ∀ e ∈ removes, ∃ f, e = Event.remove f := by
  refine ⟨_, mainRun_combine cutOk combineOk folder final fs0 clips hok hcomb (by omega), ?_⟩
  refine ⟨(cleanupLoop (clips.map (interPath folder))
      (insertFile final (clips.foldl (fun fs c => insertFile (interPath folder c) fs) fs0))).2,
    ?_, cleanupLoop_events_remove _ _⟩
  rfl

/-- Witness for C1 on the specification's two-entry scenario. -/
theorem main_multi_cuts_then_combine_witness :
    (2 ≤ ([("a.mp4", "00:00:10", "00:00:20"), ("b.mp4", "00:00:00", "00:00:05")] :
        List Clip).length) ∧
    ((([("a.mp4", "00:00:10", "00:00:20"), ("b.mp4", "00:00:00", "00:00:05")] :
        List Clip).map Prod.fst).Nodup) ∧
    (∀ c ∈ ([("a.mp4", "00:00:10", "00:00:20"), ("b.mp4", "00:00:00", "00:00:05")] :
        List Clip), (fun _ : String => true) c.1 = true) ∧
    (∃ w, mainRun (fun _ => true) true "V"
        [("a.mp4", "00:00:10", "00:00:20"), ("b.mp4", "00:00:00", "00:00:05")]
        "V/final.mp4" [] = .ok w ∧
      ∃ removes, w.events =
          ([("a.mp4", "00:00:10", "00:00:20"), ("b.mp4", "00:00:00", "00:00:05")] :
            List Clip).map (cutEvent "V") ++
          [Event.combine (([("a.mp4", "00:00:10", "00:00:20"),
            ("b.mp4", "00:00:00", "00:00:05")] : List Clip).map (interPath "V"))
            "V/final.mp4"] ++ removes ∧
        ∀ e ∈ removes, ∃ f, e = Event.remove f) :=
  ⟨by decide, by decide, by decide,
    main_multi_cuts_then_combine (fun _ => true) true "V" "V/final.mp4" []
      [("a.mp4", "00:00:10", "00:00:20"), ("b.mp4", "00:00:00", "00:00:05")]
      (by decide) (by decide) (by decide) rfl⟩

/-- C2: over a single-entry Clip Request Set, a successful run of `main`
performs exactly one cut and then moves the single intermediate file
directly onto the final output path; `combine_videos` is never invoked. -/
theorem main_single_cut_then_move (cutOk : String → Bool) (combineOk : Bool)
    (folder final : String) (fs0 : List String) (c : Clip)
    (hok : cutOk c.1 = true) :
    ∃ w, mainRun cutOk combineOk folder [c] final fs0 = .ok w ∧
      ∃ removes, w.events =
          [cutEvent folder c, Event.move (interPath folder c) final] ++ removes ∧
        (∀ e ∈ removes, ∃ f, e = Event.remove f) ∧
        ∀ ins out, Event.combine ins out ∉ w.events := by
  refine ⟨_, mainRun_single cutOk combineOk folder final fs0 c hok, ?_⟩
  refine ⟨(cleanupLoop [interPath folder c]
      (insertFile final (removeFile (interPath folder c)
        (insertFile (interPath folder c) fs0)))).2,
    rfl, cleanupLoop_events_remove _ _, ?_⟩
  intro ins out hmem
  have hev : (finishRun [interPath folder c]
      ⟨insertFile final (removeFile (interPath folder c) (insertFile (interPath folder c) fs0)),
       [cutEvent folder c, Event.move (interPath folder c) final]⟩).events =
      [cutEvent folder c, Event.move (interPath folder c) final] ++
        (cleanupLoop [interPath folder c]
          (insertFile final (removeFile (interPath folder c)
            (insertFile (interPath folder c) fs0)))).2 := rfl
  rw [hev] at hmem
  rcases List.mem_append.mp hmem with h | h
  · simp [cutEvent] at h
  · obtain ⟨f, hf⟩ := cleanupLoop_events_remove _ _ _ h
    exact Event.noConfusion hf

/-- Witness for C2 on the specification's single-entry scenario. -/
theorem main_single_cut_then_move_witness :
    (fun _ : String => true) ("only.mp4", "00:01:00", "00:02:30").1 = true ∧
    (∃ w, mainRun (fun _ => true) true "V" [("only.mp4", "00:01:00", "00:02:30")]
        "V/final.mp4" [] = .ok w ∧
      ∃ removes, w.events =
          [cutEvent "V" ("only.mp4", "00:01:00", "00:02:30"),
           Event.move (interPath "V" ("only.mp4", "00:01:00", "00:02:30")) "V/final.mp4"] ++
            removes ∧
        (∀ e ∈ removes, ∃ f, e = Event.remove f) ∧
        ∀ ins out, Event.combine ins out ∉ w.events) :=
  ⟨rfl, main_single_cut_then_move (fun _ => true) true "V" "V/final.mp4" []
    ("only.mp4", "00:01:00", "00:02:30") rfl⟩

/-- C4: a non-zero exit status of the external processor aborts the run at
once — no retry, no further cut and no combine is attempted. For a cut that
fails partway through the loop, the trace ends at the failing invocation
(so the cleanup loop never runs) and every intermediate file created by an
earlier iteration is still on disk; for a failing combine, the trace ends
at the combine invocation and likewise all intermediates remain. -/
theorem main_abort_on_failure (cutOk : String → Bool) (combineOk : Bool)
    (folder final : String) (fs0 : List String) (pre post clips : List Clip) (c : Clip) :
    ((∀ d ∈ pre, cutOk d.1 = true) → cutOk c.1 = false →
      ∃ w, mainRun cutOk combineOk folder (pre ++ c :: post) final fs0 = .error w ∧
        w.events = pre.map (cutEvent folder) ++ [cutEvent folder c] ∧
        ∀ d ∈ pre, interPath folder d ∈ w.fs) ∧
    ((∀ d ∈ clips, cutOk d.1 = true) → combineOk = false → clips.length ≠ 1 →
      ∃ w, mainRun cutOk combineOk folder clips final fs0 = .error w ∧
        w.events = clips.map (cutEvent folder) ++
          [Event.combine (clips.map (interPath folder)) final] ∧
        ∀ d ∈ clips, interPath folder d ∈ w.fs) := by
  constructor
  · intro hok hc
    refine ⟨_, mainRun_unfold_err cutOk combineOk folder final fs0 (pre ++ c :: post) _
        (cutLoop_fail cutOk folder c hc pre post ⟨fs0, []⟩ [] hok), rfl, ?_⟩
    intro d hd
    exact foldl_insert_mem_inter folder pre _ d hd
  · intro hok hcomb hlen
    refine ⟨_, mainRun_combine_fail cutOk combineOk folder final fs0 clips hok hcomb hlen,
      rfl, ?_⟩
    intro d hd
    exact foldl_insert_mem_inter folder clips _ d hd

/-- Witness for C4: the middle cut of a three-entry set fails (first
conjunct), and a two-entry set with a failing combine (second conjunct). -/
theorem main_abort_on_failure_witness :
    (∃ w, mainRun (fun f => f ≠ "b.mp4") true "V"
        ([("a.mp4", "00:00:10", "00:00:20")] ++ ("b.mp4", "00:00:00", "00:00:05") ::
          [("c.mp4", "00:00:00", "00:00:05")]) "V/final.mp4" [] = .error w ∧
      w.events = ([("a.mp4", "00:00:10", "00:00:20")] : List Clip).map (cutEvent "V") ++
        [cutEvent "V" ("b.mp4", "00:00:00", "00:00:05")] ∧
      ∀ d ∈ ([("a.mp4", "00:00:10", "00:00:20")] : List Clip),
        interPath "V" d ∈ w.fs) ∧
    (∃ w, mainRun (fun _ => true) false "V"
        [("a.mp4", "00:00:10", "00:00:20"), ("b.mp4", "00:00:00", "00:00:05")]
        "V/final.mp4" [] = .error w ∧
      w.events = ([("a.mp4", "00:00:10", "00:00:20"), ("b.mp4", "00:00:00", "00:00:05")] :
          List Clip).map (cutEvent "V") ++
        [Event.combine (([("a.mp4", "00:00:10", "00:00:20"),
          ("b.mp4", "00:00:00", "00:00:05")] : List Clip).map (interPath "V")) "V/final.mp4"] ∧
      ∀ d ∈ ([("a.mp4", "00:00:10", "00:00:20"), ("b.mp4", "00:00:00", "00:00:05")] :
          List Clip), interPath "V" d ∈ w.fs) :=
  ⟨(main_abort_on_failure (fun f => f ≠ "b.mp4") true "V" "V/final.mp4" []
      [("a.mp4", "00:00:10", "00:00:20")] [("c.mp4", "00:00:00", "00:00:05")] []
      ("b.mp4", "00:00:00", "00:00:05")).1 (by decide) (by decide),
   (main_abort_on_failure (fun _ => true) false "V" "V/final.mp4" [] [] []
      [("a.mp4", "00:00:10", "00:00:20"), ("b.mp4", "00:00:00", "00:00:05")]
      ("x", "", "")).2 (by decide) rfl (by decide)⟩

/-- C5 counterexample: on the empty Clip Request Set the code does not make
zero `combine_videos` calls — `len(cut_files) == 1` is false for zero files,
so the `else` branch invokes `combine_videos([], final)` exactly once. -/
theorem main_empty_combine_counterexample :
    ¬ ((runEvents (mainRun (fun _ => true) true "V" [] "V/final.mp4" [])).countP
        (fun e => match e with | Event.combine _ _ => true | _ => false) = 0) := by
  decide

/-- C5 (amended): on the empty Clip Request Set the computed total duration
is `"00:00:00"` and `main` performs zero `cut_video` calls, but it invokes
`combine_videos` exactly once, with the empty input list (its exit status
decides whether the run completes or aborts; the trace is the same). -/
theorem main_empty_amended (cutOk : String → Bool) (combineOk : Bool)
    (folder final : String) (fs0 : List String) :
    calculate_total_duration [] = some "00:00:00" ∧
    runEvents (mainRun cutOk combineOk folder [] final fs0) = [Event.combine [] final] := by
  constructor
  · decide
  · cases combineOk <;> rfl

/-- C6: after a successful run of `main` — in either the single-clip move
branch or the combine branch — every recorded intermediate path has been
checked and deleted if it still existed (a missing one silently skipped),
so no intermediate file remains; the final output file exists, and the only
deletions performed are of recorded intermediate paths, so the final file
is not touched after its creation. -/
theorem main_cleanup_complete (cutOk : String → Bool) (combineOk : Bool)
    (folder final : String) (fs0 : List String) (clips : List Clip)
    (hok : ∀ c ∈ clips, cutOk c.1 = true) (hcomb : combineOk = true)
    (hsep : final ∉ clips.map (interPath folder)) :
    ∃ w, mainRun cutOk combineOk folder clips final fs0 = .ok w ∧
      final ∈ w.fs ∧
      (∀ c ∈ clips, interPath folder c ∉ w.fs) ∧
      (∀ f, Event.remove f ∈ w.events → f ∈ clips.map (interPath folder)) := by
  by_cases hl : clips.length = 1
  · obtain ⟨c, rfl⟩ := List.length_eq_one.mp hl
    have hokc : cutOk c.1 = true := hok c (by simp)
    have hfin : final ≠ interPath folder c := by simpa using hsep
    refine ⟨_, mainRun_single cutOk combineOk folder final fs0 c hokc, ?_, ?_, ?_⟩
    · show final ∈ (cleanupLoop [interPath folder c] _).1
      rw [cleanupLoop_preserves _ _ final (by simpa using hfin)]
      exact (mem_insertFile _ _ _).mpr (Or.inl rfl)
    · intro d hd
      rcases List.mem_cons.mp hd with rfl | hd
      · exact cleanupLoop_removes _ _ _ (by simp)
      · simp at hd
    · intro f hf
      have hev : (finishRun [interPath folder c]
          ⟨insertFile final (removeFile (interPath folder c)
            (insertFile (interPath folder c) fs0)),
           [cutEvent folder c, Event.move (interPath folder c) final]⟩).events =
          [cutEvent folder c, Event.move (interPath folder c) final] ++
            (cleanupLoop [interPath folder c]
              (insertFile final (removeFile (interPath folder c)
                (insertFile (interPath folder c) fs0)))).2 := rfl
      rw [hev] at hf
      rcases List.mem_append.mp hf with h | h
      · simp [cutEvent] at h
      · have := cleanupLoop_remove_mem _ _ _ h
        simpa using this
  · refine ⟨_, mainRun_combine cutOk combineOk folder final fs0 clips hok hcomb hl,
      ?_, ?_, ?_⟩
    · show final ∈ (cleanupLoop (clips.map (interPath folder)) _).1
      rw [cleanupLoop_preserves _ _ final hsep]
      exact (mem_insertFile _ _ _).mpr (Or.inl rfl)
    · intro d hd
      exact cleanupLoop_removes _ _ _ (List.mem_map_of_mem (interPath folder) hd)
    · intro f hf
      have hev : (finishRun (clips.map (interPath folder))
          ⟨insertFile final (clips.foldl (fun fs c => insertFile (interPath folder c) fs) fs0),
           clips.map (cutEvent folder) ++
             [Event.combine (clips.map (interPath folder)) final]⟩).events =
          (clips.map (cutEvent folder) ++
            [Event.combine (clips.map (interPath folder)) final]) ++
            (cleanupLoop (clips.map (interPath folder))
              (insertFile final
                (clips.foldl (fun fs c => insertFile (interPath folder c) fs) fs0))).2 := rfl
      rw [hev] at hf
      rcases List.mem_append.mp hf with h | h
      · rcases List.mem_append.mp h with h | h
        · obtain ⟨d, _, hd⟩ := List.mem_map.mp h
          exact Event.noConfusion (hd.symm ▸ rfl : cutEvent folder d = Event.remove f)
        · simp at h
      · exact cleanupLoop_remove_mem _ _ _ h

/-- Witness for C6 on the two-entry scenario. -/
theorem main_cleanup_complete_witness :
    (∀ c ∈ ([("a.mp4", "00:00:10", "00:00:20"), ("b.mp4", "00:00:00", "00:00:05")] :
        List Clip), (fun _ : String => true) c.1 = true) ∧
    ("V/final.mp4" ∉ ([("a.mp4", "00:00:10", "00:00:20"),
        ("b.mp4", "00:00:00", "00:00:05")] : List Clip).map (interPath "V")) ∧
    (∃ w, mainRun (fun _ => true) true "V"
        [("a.mp4", "00:00:10", "00:00:20"), ("b.mp4", "00:00:00", "00:00:05")]
        "V/final.mp4" [] = .ok w ∧
      "V/final.mp4" ∈ w.fs ∧
      (∀ c ∈ ([("a.mp4", "00:00:10", "00:00:20"), ("b.mp4", "00:00:00", "00:00:05")] :
          List Clip), interPath "V" c ∉ w.fs) ∧
      (∀ f, Event.remove f ∈ w.events →
        f ∈ ([("a.mp4", "00:00:10", "00:00:20"), ("b.mp4", "00:00:00", "00:00:05")] :
          List Clip).map (interPath "V"))) :=
  ⟨by decide, by decide,
    main_cleanup_complete (fun _ => true) true "V" "V/final.mp4" []
      [("a.mp4", "00:00:10", "00:00:20"), ("b.mp4", "00:00:00", "00:00:05")]
      (by decide) rfl (by decide)⟩

/-- C7: for every input path, output path, start and end timestamp,
`cut_video` hands the external processor exactly the argument sequence
seek-start before the input, absolute seek-end, fixed video codec, fixed
audio codec, negative-timestamp correction enabled, output path last. -/
theorem cut_command_contract (input_file output_file start_time end_time : String) :
    cutCommand input_file output_file start_time end_time =
      specCutInvocation input_file output_file start_time end_time ∧
    (cutCommand input_file output_file start_time end_time).getLast? = some output_file :=
  ⟨rfl, rfl⟩

/-- C8: before any cutting or combining work, the script computes (and
displays) the estimated total duration and demands the confirmation `"y"`;
for every response that does not equal `"y"` after stripping whitespace and
lowercasing, the script ends in the cancelled state before `main` is
called: the trace is empty and the filesystem is exactly `fs0` — no file
was created, moved or deleted. -/
theorem script_requires_confirmation (cutOk : String → Bool) (combineOk : Bool)
    (userInput folder final : String) (clips : List Clip) (fs0 : List String) (d : String)
    (hdur : calculate_total_duration clips = some d)
    (hno : stripLower userInput ≠ ['y']) :
    scriptRun cutOk combineOk userInput folder clips final fs0 =
      some (ScriptResult.cancelled ⟨fs0, []⟩) := by
  simp only [scriptRun, hdur, Option.pure_def, Option.bind_eq_bind, Option.some_bind]
  rw [if_neg hno]

/-- Witness for C8 with the response `" N "`. -/
theorem script_requires_confirmation_witness :
    calculate_total_duration [] = some "00:00:00" ∧
    stripLower " N " ≠ ['y'] ∧
    scriptRun (fun _ => true) true " N " "V" [] "V/final.mp4" ["V/a.mp4"] =
      some (ScriptResult.cancelled ⟨["V/a.mp4"], []⟩) :=
  ⟨by decide, by decide,
    script_requires_confirmation (fun _ => true) true " N " "V" "V/final.mp4" []
      ["V/a.mp4"] "00:00:00" (by decide) (by decide)⟩
